import Mathlib

/-!
Verification of the glc dynamic-binding library.

The library encodes a 64-bit identifier into the shape of the call
stack: `encstart` splits the identifier into 8 bytes (least-significant
first) and dispatches through a chain of 256 per-byte relay functions
(`enc00`..`encff`), terminating in the `encend` sentinel which invokes
the user continuation.  The decoder (`lastID`, reference variant
`fastestlastID`) captures up to 10000 program counters of the current
stack, finds the newest `encend` frame (using a cheap address-range
pre-filter before the expensive entry resolution), then walks older
frames, reassembling bytes via shift-left-8-and-OR until the `encstart`
sentinel frame is reached.  `WithContext` stores id -> value in a
concurrent map, runs the continuation under the encoding, and deletes
the entry on every exit path; `GetContext` decodes the id and loads the
value.

We model a captured stack frame abstractly: each Go frame contributes a
program counter; `runtime.FuncForPC(pc).Entry()` resolves it to the
entry address of its function.  The function identities relevant to the
decoder are: the `encstart` sentinel, the `encend` sentinel, the 256
relay functions (one per byte), and everything else.  The pre-filter
`pc >= encendpc && pc < encendpc+35` is modelled as a Boolean attribute
of the captured frame (whether its pc lies in the encend address
range); for stacks produced by a correctly compiled program this
attribute holds exactly for `encend` frames.
-/

namespace GLC

/-- Resolved function-entry identity of a captured frame: the scope-start
sentinel `encstart`, the scope-end sentinel `encend`, one of the 256
relay functions `enc00`..`encff` (tagged with its byte), or an
unrelated ordinary function (tagged to allow distinct ones). -/
inductive Entry where
  | estart : Entry
  | eend : Entry
  | relay : Fin 256 → Entry
  | other : Nat → Entry
deriving DecidableEq

/-- One captured program counter.  `inEndRange` models the pre-filter
test `pc >= encendpc && pc < encendpc+35`; `entry` models
`runtime.FuncForPC(pc).Entry()`. -/
structure Frame where
  inEndRange : Bool
  entry : Entry
deriving DecidableEq

/-- The frame left on the stack by the `encend` sentinel (its pc lies in
the encend address range). -/
def encendFrame : Frame := ⟨true, Entry.eend⟩

/-- The frame left on the stack by the `encstart` sentinel. -/
def encstartFrame : Frame := ⟨false, Entry.estart⟩

/-- The frame left on the stack by the relay function for byte `b`. -/
def encFrame (b : Fin 256) : Frame := ⟨false, Entry.relay b⟩

/-- A frame of an ordinary (non-relay, non-sentinel) function. -/
def othFrame : Frame := ⟨false, Entry.other 0⟩

/-- Modulus of Go's `uint64` arithmetic. -/
def u64Mod : Nat := 2 ^ 64

/-- The byte-splitting loop of `encstart`: `n` iterations of
`b := byte(id & 0xFF); id >>= 8`, least-significant byte first. -/
def idBytesAux : Nat → Nat → List (Fin 256)
  | 0, _ => []
  | n + 1, id => ⟨id % 256, Nat.mod_lt _ (by norm_num)⟩ :: idBytesAux n (id / 256)

/-- The 8 bytes `bs[0..7]` computed by `encstart`, `bs[0]` least
significant. -/
def idBytes (id : Nat) : List (Fin 256) := idBytesAux 8 id

/-- Stack segment built by invoking the relay function for byte `b` with
remaining bytes `vnext` on top of stack `s`: the relay pushes its own
frame, then either dispatches on the next byte or (when no bytes
remain) calls `encend`, which pushes its frame and runs the
continuation. -/
def encCall (b : Fin 256) (vnext : List (Fin 256)) (s : List Frame) : List Frame :=
  match vnext with
  | [] => encendFrame :: encFrame b :: s
  | v :: rest => encCall v rest (encFrame b :: s)

/-- The stack (newest frame first) seen by the continuation of
`encstart(id, cont)` when `cont` executes, above caller stack `s`:
`encstart` pushes its own sentinel frame, splits `id` into 8 bytes and
dispatches the relay chain on them. -/
def encstart (id : Nat) (s : List Frame) : List Frame :=
  match idBytes id with
  | [] => encstartFrame :: s
  | b :: rest => encCall b rest (encstartFrame :: s)

/-- `valForPC`: the generated switch mapping each relay function's entry
address to its byte; sentinels and ordinary functions return
`(0, false)`, modelled as `none`. -/
def valForPC : Entry → Option (Fin 256)
  | Entry.relay b => some b
  | _ => none

/-- `encmap`: the map built by `init`, with exactly one entry per relay
function, its entry address mapping to its byte. -/
def encmap : Entry → Option (Fin 256)
  | Entry.relay b => some b
  | _ => none

/-- Result of a decode variant: a returned `(uint64, bool)` pair, or a
runtime panic. -/
inductive DecodeResult where
  | ok : Nat → Bool → DecodeResult
  | panicked : DecodeResult
deriving DecidableEq

/-- Inner loop shared by `fastestlastID` and `fasterlastID`: walk frames
old-ward; on the `encstart` sentinel return the accumulated value; on a
relay frame shift the accumulator left 8 bits and OR the byte in
(uint64 arithmetic); skip any other frame.  `none` means the loop
exhausted the captured frames without meeting `encstart`. -/
def accumulate (value : Nat) : List Frame → Option Nat
  | [] => none
  | f :: rest =>
    if f.entry = Entry.estart then some value
    else
      match valForPC f.entry with
      | none => accumulate value rest
      | some v => accumulate ((value * 256 + v.val) % u64Mod) rest

/-- Inner loop of `fastlastID`: identical to `accumulate` but resolving
bytes through `encmap` instead of the `valForPC` switch. -/
def accumulateMap (value : Nat) : List Frame → Option Nat
  | [] => none
  | f :: rest =>
    if f.entry = Entry.estart then some value
    else
      match encmap f.entry with
      | none => accumulateMap value rest
      | some v => accumulateMap ((value * 256 + v.val) % u64Mod) rest

/-- Outer loop of `fastestlastID` over the captured frames: frames whose
pc fails the encend address-range pre-filter are skipped without
resolution; an in-range pc is resolved, and if its entry is not
`encend` the function panics; otherwise the inner loop runs from this
frame on, a successful reassembly returning `(value, true)` and an
exhausted one falling back to the outer scan. -/
def fastestScan : List Frame → DecodeResult
  | [] => DecodeResult.ok 0 false
  | f :: rest =>
    if f.inEndRange then
      if f.entry = Entry.eend then
        match accumulate 0 (f :: rest) with
        | some v => DecodeResult.ok v true
        | none => fastestScan rest
      else DecodeResult.panicked
    else fastestScan rest

/-- Outer loop of `fasterlastID`: every pc is resolved and compared with
`encend`'s entry; no pre-filter and no panic branch. -/
def fasterScan : List Frame → DecodeResult
  | [] => DecodeResult.ok 0 false
  | f :: rest =>
    if f.entry = Entry.eend then
      match accumulate 0 (f :: rest) with
      | some v => DecodeResult.ok v true
      | none => fasterScan rest
    else fasterScan rest

/-- Outer loop of `fastlastID`: like `fasterScan` but the inner loop
uses `encmap`. -/
def fastScan : List Frame → DecodeResult
  | [] => DecodeResult.ok 0 false
  | f :: rest =>
    if f.entry = Entry.eend then
      match accumulateMap 0 (f :: rest) with
      | some v => DecodeResult.ok v true
      | none => fastScan rest
    else fastScan rest

/-- Inner loop of `slowlastID` over a `runtime.CallersFrames` iterator:
a frame is processed only when `more` is true, i.e. when at least one
frame follows it, so the oldest captured frame is never examined; a
frame that is neither `encstart` nor in `encmap` makes the function
return `(0, false)` immediately rather than being skipped. -/
def slowInner (value : Nat) : List Frame → DecodeResult
  | [] => DecodeResult.ok 0 false
  | [_] => DecodeResult.ok 0 false
  | f :: rest =>
    if f.entry = Entry.estart then DecodeResult.ok value true
    else
      match encmap f.entry with
      | none => DecodeResult.ok 0 false
      | some v => slowInner ((value * 256 + v.val) % u64Mod) rest

/-- Outer loop of `slowlastID`: frames come from the shared
`runtime.CallersFrames` iterator, each processed only while `more`
holds; on the `encend` entry the inner loop continues from the next
frame of the same iterator. -/
def slowScan : List Frame → DecodeResult
  | [] => DecodeResult.ok 0 false
  | [_] => DecodeResult.ok 0 false
  | f :: rest =>
    if f.entry = Entry.eend then slowInner 0 rest
    else slowScan rest

/-- `fastestlastID`: captures at most 10000 program counters
(`var pcs [10000]uintptr; runtime.Callers(0, pcs[:])`) and scans them. -/
def fastestlastID (stack : List Frame) : DecodeResult :=
  fastestScan (stack.take 10000)

/-- `fasterlastID` with its 10000-pc capture. -/
def fasterlastID (stack : List Frame) : DecodeResult :=
  fasterScan (stack.take 10000)

/-- `fastlastID` with its 10000-pc capture. -/
def fastlastID (stack : List Frame) : DecodeResult :=
  fastScan (stack.take 10000)

/-- `slowlastID` with its 10000-pc capture. -/
def slowlastID (stack : List Frame) : DecodeResult :=
  slowScan (stack.take 10000)

/-- `lastID` delegates to the fastest variant. -/
def lastID (stack : List Frame) : DecodeResult :=
  fastestlastID stack

/-- `sync.Map` state, modelled as an association list read through its
first matching key (a `Store` prepends, modelling overwrite). -/
def storeLoad {α : Type} : List (Nat × α) → Nat → Option α
  | [], _ => none
  | (k, v) :: rest, key => if k = key then some v else storeLoad rest key

/-- `sync.Map.Delete`: remove every entry for the key. -/
def storeDelete {α : Type} (key : Nat) : List (Nat × α) → List (Nat × α)
  | [] => []
  | (k, v) :: rest =>
    if k = key then storeDelete key rest else (k, v) :: storeDelete key rest

/-- Result of a Go call that may panic, carrying the returned value. -/
inductive GoVal (α : Type) where
  | ret : α → GoVal α
  | panicked : GoVal α
deriving DecidableEq

/-- `GetContext`: decode the innermost id from the captured stack; on
not-found return `nil` (`none`); otherwise load the id from the store,
`nil` if absent.  A decoder panic propagates. -/
def GetContext {α : Type} (stack : List Frame) (s : List (Nat × α)) : GoVal (Option α) :=
  match lastID stack with
  | DecodeResult.panicked => GoVal.panicked
  | DecodeResult.ok id found =>
    if found then GoVal.ret (storeLoad s id) else GoVal.ret none

/-- Outcome of running a store-transforming continuation: normal return
or panic, in both cases with the store state it left behind. -/
inductive RunResult (α : Type) where
  | ret : List (Nat × α) → RunResult α
  | panicked : List (Nat × α) → RunResult α
deriving DecidableEq

/-- The store state a `RunResult` left behind. -/
def exitStore {α : Type} : RunResult α → List (Nat × α)
  | RunResult.ret s => s
  | RunResult.panicked s => s

/-- `WithContext` as a transformer of the binding store: store
`id -> ctx`, run the body (which may itself mutate the store and may
panic), and — because the delete is deferred — remove the entry on both
the normal and the panicking exit path, re-raising a panic. -/
def WithContext {α : Type} (ctx : α) (id : Nat)
    (body : List (Nat × α) → RunResult α) (s : List (Nat × α)) : RunResult α :=
  match body ((id, ctx) :: s) with
  | RunResult.ret s2 => RunResult.ret (storeDelete id s2)
  | RunResult.panicked s2 => RunResult.panicked (storeDelete id s2)

/-! ### Shape of the encoded stack segment -/

theorem idBytesAux_length (n id : Nat) : (idBytesAux n id).length = n := by
  induction n generalizing id with
  | zero => rfl
  | succ n ih => simp [idBytesAux, ih]

theorem idBytes_length (id : Nat) : (idBytes id).length = 8 :=
  idBytesAux_length 8 id

theorem encCall_eq (vnext : List (Fin 256)) (b : Fin 256) (s : List Frame) :
    encCall b vnext s = encendFrame :: ((b :: vnext).reverse.map encFrame) ++ s := by
  induction vnext generalizing b s with
  | nil => simp [encCall]
  | cons v rest ih =>
    simp only [encCall, ih v (encFrame b :: s)]
    simp

theorem idBytes_cons (id : Nat) :
    idBytes id = ⟨id % 256, Nat.mod_lt _ (by norm_num)⟩ :: idBytesAux 7 (id / 256) := rfl

theorem encstart_eq (id : Nat) (s : List Frame) :
    encstart id s
      = encendFrame :: ((idBytes id).reverse.map encFrame) ++ encstartFrame :: s := by
  simp only [encstart, idBytes_cons, encCall_eq]

theorem encstart_length (id : Nat) (s : List Frame) :
    (encstart id s).length = s.length + 10 := by
  rw [encstart_eq]
  simp [idBytes_length]
  omega

/-! ### Arithmetic: reassembling the bytes -/

/-- One step of the inner decode loop: `value <<= 8; value |= v` in
uint64 arithmetic. -/
def stepM (v : Nat) (b : Fin 256) : Nat := (v * 256 + b.val) % u64Mod

/-- The same step without the 64-bit wrap. -/
def stepP (v : Nat) (b : Fin 256) : Nat := v * 256 + b.val

theorem foldl_stepP_modeq (l : List (Fin 256)) (x y : Nat)
    (h : x % u64Mod = y % u64Mod) :
    List.foldl stepP x l % u64Mod = List.foldl stepP y l % u64Mod := by
  induction l generalizing x y with
  | nil => exact h
  | cons b rest ih =>
    simp only [List.foldl_cons, stepP]
    exact ih _ _ (Nat.ModEq.add_right b.val (Nat.ModEq.mul_right 256 h))

theorem foldl_stepM_eq (l : List (Fin 256)) (v : Nat) (hv : v % u64Mod = v) :
    List.foldl stepM v l = List.foldl stepP v l % u64Mod := by
  induction l generalizing v with
  | nil => exact hv.symm
  | cons b rest ih =>
    simp only [List.foldl_cons]
    rw [ih (stepM v b) (Nat.mod_mod_of_dvd _ dvd_rfl)]
    exact foldl_stepP_modeq rest _ _ (by simp [stepM, stepP, Nat.mod_mod_of_dvd])

theorem mod_mul_decomp (a b c : Nat) :
    a % (b * c) = b * (a / b % c) + a % b := by
  conv_lhs => rw [← Nat.div_add_mod (a % (b * c)) b]
  rw [Nat.mod_mul_right_div_self, Nat.mod_mod_of_dvd a (Dvd.intro c rfl)]

theorem foldl_stepP_idBytesAux (n : Nat) :
    ∀ id : Nat, List.foldl stepP 0 (idBytesAux n id).reverse = id % 256 ^ n := by
  induction n with
  | zero => intro id; simp [idBytesAux, Nat.mod_one]
  | succ n ih =>
    intro id
    simp only [idBytesAux, List.reverse_cons, List.foldl_append, ih (id / 256)]
    show (id / 256 % 256 ^ n) * 256 + id % 256 = id % 256 ^ (n + 1)
    rw [pow_succ, mul_comm (256 ^ n) 256, mod_mul_decomp]
    omega

theorem foldl_stepM_idBytes (id : Nat) :
    List.foldl stepM 0 (idBytes id).reverse = id % u64Mod := by
  rw [foldl_stepM_eq _ 0 rfl, idBytes, foldl_stepP_idBytesAux 8 id]
  have h8 : (256 : Nat) ^ 8 = u64Mod := by norm_num [u64Mod]
  rw [h8, Nat.mod_mod_of_dvd _ dvd_rfl]

/-! ### The inner decode loop on the encoded segment -/

theorem accumulate_encstartFrame (value : Nat) (rest : List Frame) :
    accumulate value (encstartFrame :: rest) = some value := by
  simp [accumulate, encstartFrame]

theorem accumulate_encendFrame (value : Nat) (rest : List Frame) :
    accumulate value (encendFrame :: rest) = accumulate value rest := by
  simp [accumulate, encendFrame, valForPC]

theorem accumulate_encFrame (value : Nat) (b : Fin 256) (rest : List Frame) :
    accumulate value (encFrame b :: rest)
      = accumulate ((value * 256 + b.val) % u64Mod) rest := by
  simp [accumulate, encFrame, valForPC]

theorem accumulate_relayList (l : List (Fin 256)) :
    ∀ (value : Nat) (tail : List Frame),
      accumulate value (l.map encFrame ++ encstartFrame :: tail)
        = some (List.foldl stepM value l) := by
  induction l with
  | nil => intro value tail; simpa using accumulate_encstartFrame value tail
  | cons b rest ih =>
    intro value tail
    simp only [List.map_cons, List.cons_append, accumulate_encFrame, ih]
    rfl

theorem accumulate_encstart (id : Nat) (tail : List Frame) :
    accumulate 0 (encstart id tail) = some (id % u64Mod) := by
  rw [encstart_eq]
  simp only [List.cons_append]
  rw [accumulate_encendFrame, accumulate_relayList, foldl_stepM_idBytes]

/-! ### The outer scan -/

theorem fastestScan_cons_skip (f : Frame) (l : List Frame)
    (h : f.inEndRange = false) : fastestScan (f :: l) = fastestScan l := by
  simp [fastestScan, h]

theorem fastestScan_append_skip (noise l : List Frame)
    (h : ∀ f ∈ noise, f.inEndRange = false) :
    fastestScan (noise ++ l) = fastestScan l := by
  induction noise with
  | nil => rfl
  | cons f rest ih =>
    rw [List.cons_append, fastestScan_cons_skip f _ (h f (by simp)),
      ih fun g hg => h g (by simp [hg])]

theorem fastestScan_all_skip (l : List Frame)
    (h : ∀ f ∈ l, f.inEndRange = false) :
    fastestScan l = DecodeResult.ok 0 false := by
  have := fastestScan_append_skip l [] h
  simpa using this

theorem fastestScan_encendFrame_cons (rest : List Frame) :
    fastestScan (encendFrame :: rest)
      = match accumulate 0 (encendFrame :: rest) with
        | some v => DecodeResult.ok v true
        | none => fastestScan rest := rfl

theorem fastestScan_encstart (id : Nat) (tail : List Frame) :
    fastestScan (encstart id tail) = DecodeResult.ok (id % u64Mod) true := by
  have hacc := accumulate_encstart id tail
  rw [encstart_eq, List.cons_append] at hacc ⊢
  rw [fastestScan_encendFrame_cons, hacc]

/-! ### Effect of the 10000-pc capture on the encoded segment -/

theorem take_encstart (n id : Nat) (tail : List Frame) (h : 10 ≤ n) :
    List.take n (encstart id tail) = encstart id (List.take (n - 10) tail) := by
  obtain ⟨m, rfl⟩ : ∃ m, n = m + 10 := ⟨n - 10, by omega⟩
  rw [encstart_eq, encstart_eq]
  have hlen : (encendFrame :: ((idBytes id).reverse.map encFrame)).length = 9 := by
    simp [idBytes_length]
  rw [List.take_append_eq_append_take,
    List.take_of_length_le (by omega : (encendFrame :: ((idBytes id).reverse.map encFrame)).length ≤ m + 10),
    hlen]
  have : m + 10 - 9 = m + 1 := by omega
  rw [this, List.take_succ_cons]
  simp

theorem fastestlastID_noise_encstart (noise : List Frame) (id : Nat)
    (tail : List Frame) (hn : ∀ f ∈ noise, f.inEndRange = false)
    (hlen : noise.length + 10 ≤ 10000) :
    fastestlastID (noise ++ encstart id tail) = DecodeResult.ok (id % u64Mod) true := by
  rw [fastestlastID, List.take_append_eq_append_take,
    List.take_of_length_le (by omega : noise.length ≤ 10000),
    take_encstart _ _ _ (by omega), fastestScan_append_skip _ _ hn,
    fastestScan_encstart]

/-! ### Binding store lemmas -/

theorem storeLoad_cons_self {α : Type} (id : Nat) (v : α) (s : List (Nat × α)) :
    storeLoad ((id, v) :: s) id = some v := by
  simp [storeLoad]

theorem storeLoad_delete_self {α : Type} (id : Nat) (s : List (Nat × α)) :
    storeLoad (storeDelete id s) id = none := by
  induction s with
  | nil => rfl
  | cons p rest ih =>
    obtain ⟨k, v⟩ := p
    by_cases hk : k = id
    · simp [storeDelete, hk, ih]
    · simp [storeDelete, storeLoad, hk, ih]

theorem storeDelete_cons_self {α : Type} (id : Nat) (v : α) (s : List (Nat × α)) :
    storeDelete id ((id, v) :: s) = storeDelete id s := by
  simp [storeDelete]

theorem storeDelete_cons_ne {α : Type} (id k : Nat) (v : α) (s : List (Nat × α))
    (h : k ≠ id) : storeDelete id ((k, v) :: s) = (k, v) :: storeDelete id s := by
  simp [storeDelete, h]

/-- A lookup performed with `noise` ordinary frames above the encoding of
`id` resolves `id` through the store. -/
theorem getContext_noise_encstart {α : Type} (v : α) (id : Nat) (s : List (Nat × α))
    (noise tail : List Frame) (hid : id < u64Mod)
    (hn : ∀ f ∈ noise, f.inEndRange = false) (hlen : noise.length + 10 ≤ 10000)
    (hload : storeLoad s id = some v) :
    GetContext (noise ++ encstart id tail) s = GoVal.ret (some v) := by
  rw [GetContext, lastID, fastestlastID_noise_encstart noise id tail hn hlen,
    Nat.mod_eq_of_lt hid]
  simp [hload]

/-! ### C1: encoder/decoder round trip -/

/-- C1: for every 64-bit identifier `id`, running the decoder at a point
where `encstart(id, k)` has built its relay chain and is executing `k`
(the stack is the encoded segment above an arbitrary caller stack)
returns `(id, true)`: the byte-wise stack encoding reassembled
newest-to-oldest by shift-left-8-and-OR equals the original id. -/
theorem encode_decode_roundtrip (id : Nat) (tail : List Frame) (h : id < u64Mod) :
    fastestlastID (encstart id tail) = DecodeResult.ok id true := by
  have hw := fastestlastID_noise_encstart [] id tail (by simp) (by simp)
  simpa [Nat.mod_eq_of_lt h] using hw

/-- Witness for C1 at the identifier used by the repository's own test
(`TestEncstart`). -/
theorem encode_decode_roundtrip_witness :
    fastestlastID (encstart 0x00112233 []) = DecodeResult.ok 0x00112233 true :=
  encode_decode_roundtrip 0x00112233 [] (by norm_num [u64Mod])

/-! ### C2: lookup within the dynamic extent -/

/-- C2 (amended): for any value `v` bound to identifier `id` by
`WithContext`, a `GetContext` performed within the dynamic extent of
the continuation returns `v`, with arbitrarily many ordinary
(non-relay) frames interposed between scope entry and the lookup —
provided the scope-end sentinel frame still lies within the decoder's
10000-frame capture window. -/
theorem lookup_within_extent {α : Type} (v : α) (id : Nat) (s : List (Nat × α))
    (noise tail : List Frame) (hid : id < u64Mod)
    (hn : ∀ f ∈ noise, f.inEndRange = false) (hlen : noise.length + 10 ≤ 10000) :
    GetContext (noise ++ encstart id tail) ((id, v) :: s) = GoVal.ret (some v) :=
  getContext_noise_encstart v id _ noise tail hid hn hlen (storeLoad_cons_self id v s)

/-- Witness for C2 with one interposed ordinary frame. -/
theorem lookup_within_extent_witness :
    GetContext ([othFrame] ++ encstart 3 []) [(3, (42 : Nat))] = GoVal.ret (some 42) :=
  lookup_within_extent 42 3 [] [othFrame] []
    (by norm_num [u64Mod])
    (by intro f hf; simp at hf; rw [hf]; rfl)
    (by simp)

/-- Counterexample to C2 as stated: with 10000 ordinary frames
interposed between scope entry and the lookup, the lookup is still
within the scope's dynamic extent (the relay and sentinel frames remain
on the stack) yet `GetContext` returns `nil` instead of the bound
value, because the scope-end frame falls outside the 10000-pc capture
buffer. -/
theorem lookup_deep_stack_counterexample :
    GetContext (List.replicate 10000 othFrame ++ encstart 1 []) [(1, (42 : Nat))]
      = GoVal.ret none ∧
    GoVal.ret (none : Option Nat) ≠ GoVal.ret (some 42) := by
  refine ⟨?_, by simp⟩
  have hscan : fastestlastID (List.replicate 10000 othFrame ++ encstart 1 [])
      = DecodeResult.ok 0 false := by
    rw [fastestlastID, List.take_append_eq_append_take,
      List.take_of_length_le (by rw [List.length_replicate]), List.length_replicate]
    simp only [Nat.sub_self, List.take_zero, List.append_nil]
    exact fastestScan_all_skip _ (fun f hf => by rw [List.eq_of_mem_replicate hf]; rfl)
  rw [GetContext, lastID, hscan]
  rfl

/-! ### C3: nested scopes behave as a stack -/

/-- C3: nested bindings on one call chain behave as a stack: after
`WithContext` binds `v1` to `id1` and, inside it, `WithContext` binds
`v2` to `id2`, a lookup inside the inner scope returns `v2` (the
decoder matches the newest scope-end sentinel first), and after the
inner scope exits (its store entry deleted) a lookup back in the outer
scope returns `v1`. -/
theorem nested_scopes_stack_discipline {α : Type} (v1 v2 : α) (id1 id2 : Nat)
    (s : List (Nat × α)) (n2 nf tail : List Frame)
    (h1 : id1 < u64Mod) (h2 : id2 < u64Mod) (hne : id1 ≠ id2)
    (hn2 : ∀ f ∈ n2, f.inEndRange = false) (hl2 : n2.length + 10 ≤ 10000)
    (hnf : ∀ f ∈ nf, f.inEndRange = false) (hlf : nf.length + 10 ≤ 10000) :
    GetContext (n2 ++ encstart id2 (nf ++ encstart id1 tail))
        ((id2, v2) :: (id1, v1) :: s) = GoVal.ret (some v2) ∧
    GetContext (nf ++ encstart id1 tail)
        (storeDelete id2 ((id2, v2) :: (id1, v1) :: s)) = GoVal.ret (some v1) := by
  constructor
  · exact getContext_noise_encstart v2 id2 _ n2 _ h2 hn2 hl2
      (storeLoad_cons_self id2 v2 _)
  · rw [storeDelete_cons_self, storeDelete_cons_ne id2 id1 v1 s hne]
    exact getContext_noise_encstart v1 id1 _ nf tail h1 hnf hlf
      (storeLoad_cons_self id1 v1 _)

/-- Witness for C3 at concrete identifiers and values. -/
theorem nested_scopes_stack_discipline_witness :
    GetContext ([] ++ encstart 2 ([] ++ encstart 1 []))
        ((2, (20 : Nat)) :: (1, 10) :: []) = GoVal.ret (some 20) ∧
    GetContext ([] ++ encstart 1 [])
        (storeDelete 2 ((2, (20 : Nat)) :: (1, 10) :: [])) = GoVal.ret (some 10) :=
  nested_scopes_stack_discipline 10 20 1 2 [] [] [] []
    (by norm_num [u64Mod]) (by norm_num [u64Mod]) (by norm_num)
    (by simp) (by simp) (by simp) (by simp)

/-! ### C4: decode-algorithm variants -/

theorem encmap_eq_valForPC (e : Entry) : encmap e = valForPC e := by
  cases e <;> rfl

theorem accumulateMap_eq (l : List Frame) :
    ∀ value, accumulateMap value l = accumulate value l := by
  induction l with
  | nil => intro value; rfl
  | cons f rest ih =>
    intro value
    simp only [accumulateMap, accumulate, encmap_eq_valForPC]
    cases valForPC f.entry <;> simp [ih]

theorem fastScan_eq_fasterScan (l : List Frame) : fastScan l = fasterScan l := by
  induction l with
  | nil => rfl
  | cons f rest ih =>
    simp only [fastScan, fasterScan, accumulateMap_eq]
    cases accumulate 0 (f :: rest) <;> simp [ih]

theorem fastestScan_eq_fasterScan (l : List Frame)
    (h : ∀ f ∈ l, f.inEndRange = true ↔ f.entry = Entry.eend) :
    fastestScan l = fasterScan l := by
  induction l with
  | nil => rfl
  | cons f rest ih =>
    have hf := h f (by simp)
    have hrest : ∀ g ∈ rest, g.inEndRange = true ↔ g.entry = Entry.eend :=
      fun g hg => h g (by simp [hg])
    by_cases he : f.entry = Entry.eend
    · have hr : f.inEndRange = true := hf.mpr he
      rw [fastestScan, fasterScan, if_pos hr, if_pos he, if_pos he]
      cases accumulate 0 (f :: rest) <;> simp [ih hrest]
    · have hr : ¬ (f.inEndRange = true) := fun hc => he (hf.mp hc)
      rw [fastestScan, fasterScan, if_neg hr, if_neg he]
      exact ih hrest

/-- Counterexample to C4 as stated: on a captured stack with an ordinary
(non-relay) frame between the scope-end and scope-start sentinels,
`slowlastID` returns `(0, false)` (its inner loop bails out on a frame
absent from `encmap`) while the reference variant `fastestlastID` skips
the frame and returns `(0, true)`: the variants do not return the same
result on every captured stack. -/
theorem slow_fastest_disagree :
    slowlastID [encendFrame, othFrame, encstartFrame, ⟨false, Entry.other 1⟩]
      = DecodeResult.ok 0 false ∧
    fastestlastID [encendFrame, othFrame, encstartFrame, ⟨false, Entry.other 1⟩]
      = DecodeResult.ok 0 true := by decide

/-- C4 (amended): the three fast variants (`fastlastID`,
`fasterlastID`, `fastestlastID`) agree on every captured stack whose
frames satisfy the pre-filter invariant (a pc lies in the encend
address range exactly when its frame is an `encend` frame); `fastlastID`
and `fasterlastID` agree on every stack unconditionally.  `slowlastID`
differs semantically: it returns not-found instead of skipping when a
non-relay frame lies between the sentinels, and it never examines the
oldest captured frame. -/
theorem fast_variants_agree (stack : List Frame)
    (h : ∀ f ∈ stack, f.inEndRange = true ↔ f.entry = Entry.eend) :
    fastestlastID stack = fasterlastID stack ∧
    fastlastID stack = fasterlastID stack := by
  constructor
  · rw [fastestlastID, fasterlastID]
    exact fastestScan_eq_fasterScan _ fun f hf => h f (List.take_subset _ _ hf)
  · rw [fastlastID, fasterlastID, fastScan_eq_fasterScan]

/-- Witness for C4's amended statement on a well-formed encoded stack. -/
theorem fast_variants_agree_witness :
    fastestlastID (encstart 7 []) = fasterlastID (encstart 7 []) ∧
    fastlastID (encstart 7 []) = fasterlastID (encstart 7 []) :=
  fast_variants_agree (encstart 7 []) (by decide)

/-! ### C5: scope-end without scope-start -/

theorem accumulate_no_start (l : List Frame)
    (h : ∀ f ∈ l, f.entry ≠ Entry.estart) :
    ∀ value, accumulate value l = none := by
  induction l with
  | nil => intro value; rfl
  | cons f rest ih =>
    intro value
    rw [accumulate, if_neg (h f (by simp))]
    have ih' := ih fun g hg => h g (by simp [hg])
    cases valForPC f.entry
    · exact ih' value
    · exact ih' _

theorem fastestScan_no_start (l : List Frame)
    (hs : ∀ f ∈ l, f.entry ≠ Entry.estart)
    (hr : ∀ f ∈ l, f.inEndRange = true → f.entry = Entry.eend) :
    fastestScan l = DecodeResult.ok 0 false := by
  induction l with
  | nil => rfl
  | cons f rest ih =>
    have hs' : ∀ g ∈ rest, g.entry ≠ Entry.estart := fun g hg => hs g (by simp [hg])
    have hr' : ∀ g ∈ rest, g.inEndRange = true → g.entry = Entry.eend :=
      fun g hg => hr g (by simp [hg])
    cases hf : f.inEndRange
    · rw [fastestScan_cons_skip f rest hf]
      exact ih hs' hr'
    · rw [fastestScan, if_pos hf, if_pos (hr f (by simp) hf),
        accumulate_no_start (f :: rest) hs 0]
      exact ih hs' hr'

/-- Counterexample to C5 as stated: a captured stack holding a scope-end
sentinel frame and nothing older.  The decoder exhausts the remaining
frames without matching a scope-start sentinel, yet it does not abort:
it returns the ordinary not-found result `(0, false)`. -/
theorem missing_start_returns_not_found :
    fastestlastID [encendFrame] = DecodeResult.ok 0 false ∧
    fastestlastID [encendFrame] ≠ DecodeResult.panicked := by decide

/-- C5 (amended): if the decoder finds a scope-end sentinel frame but
the captured frames contain no scope-start sentinel, it never returns a
decoded value: the inner loop falls through, the outer scan continues
and (every in-range pc resolving to the scope-end sentinel, so the
pre-filter abort is not taken) the decoder reports the ordinary
not-found result `(0, false)` rather than failing loudly. -/
theorem no_start_not_found (stack : List Frame)
    (hs : ∀ f ∈ stack, f.entry ≠ Entry.estart)
    (hr : ∀ f ∈ stack, f.inEndRange = true → f.entry = Entry.eend) :
    fastestlastID stack = DecodeResult.ok 0 false := by
  rw [fastestlastID]
  exact fastestScan_no_start _
    (fun f hf => hs f (List.take_subset _ _ hf))
    (fun f hf => hr f (List.take_subset _ _ hf))

/-- Witness for C5's amended statement: scope-end followed only by an
ordinary frame. -/
theorem no_start_not_found_witness :
    fastestlastID [encendFrame, othFrame] = DecodeResult.ok 0 false :=
  no_start_not_found [encendFrame, othFrame] (by decide) (by decide)

/-! ### C6: the binding is deleted on every exit path -/

/-- C6: for every value and identifier, the store entry created by
`WithContext` is removed on every exit path of the wrapped continuation
— normal return or panic (the delete is deferred) — regardless of what
the continuation did to the store; afterwards the identifier resolves
to nothing and any lookup that decodes this identifier returns `nil`. -/
theorem withContext_deletes_binding {α : Type} (ctx : α) (id : Nat)
    (body : List (Nat × α) → RunResult α) (s : List (Nat × α)) :
    storeLoad (exitStore (WithContext ctx id body s)) id = none ∧
    ∀ stack, fastestlastID stack = DecodeResult.ok id true →
      GetContext stack (exitStore (WithContext ctx id body s)) = GoVal.ret none := by
  have hload : storeLoad (exitStore (WithContext ctx id body s)) id = none := by
    rw [WithContext]
    cases body ((id, ctx) :: s) <;> exact storeLoad_delete_self id _
  refine ⟨hload, ?_⟩
  intro stack hdec
  rw [GetContext, lastID, hdec]
  simp [hload]

/-- Witness for C6 with a normally returning continuation. -/
theorem withContext_deletes_binding_witness :
    storeLoad (exitStore (WithContext (7 : Nat) 5 RunResult.ret [])) 5 = none ∧
    GetContext (encstart 5 []) (exitStore (WithContext (7 : Nat) 5 RunResult.ret []))
      = GoVal.ret none := by
  have h := withContext_deletes_binding (7 : Nat) 5 RunResult.ret []
  exact ⟨h.1, h.2 (encstart 5 []) (by decide)⟩

/-! ### C7: lookup without an enclosing scope -/

/-- C7: a lookup on a call chain with no enclosing `WithContext` (no
frame in the scope-end address range on the captured stack) is a normal
not-found: the decoder returns `(0, false)` — no panic — and
`GetContext` returns `nil`, whatever the binding store holds. -/
theorem lookup_no_scope_not_found {α : Type} (stack : List Frame)
    (s : List (Nat × α)) (h : ∀ f ∈ stack, f.inEndRange = false) :
    fastestlastID stack = DecodeResult.ok 0 false ∧
    GetContext stack s = GoVal.ret none := by
  have hd : fastestlastID stack = DecodeResult.ok 0 false := by
    rw [fastestlastID]
    exact fastestScan_all_skip _ fun f hf => h f (List.take_subset _ _ hf)
  refine ⟨hd, ?_⟩
  rw [GetContext, lastID, hd]
  rfl

/-- Witness for C7 on a stack of two ordinary frames. -/
theorem lookup_no_scope_not_found_witness :
    fastestlastID [othFrame, ⟨false, Entry.other 1⟩] = DecodeResult.ok 0 false ∧
    GetContext [othFrame, ⟨false, Entry.other 1⟩] [(1, (5 : Nat))] = GoVal.ret none :=
  lookup_no_scope_not_found _ [(1, (5 : Nat))] (by decide)

/-! ### C8: fixed shape of the encoding -/

/-- C8: `encstart` always splits the identifier into exactly 8
fixed-width bytes and performs exactly 8 relay dispatches followed by
the scope-end sentinel: while the continuation runs the stack gains
exactly 10 frames — newest-first the scope-end frame, the 8 relay
frames (newest = last byte), and the scope-start frame — independent of
the identifier's value. -/
theorem encoding_fixed_shape (id : Nat) (tail : List Frame) :
    (idBytes id).length = 8 ∧
    encstart id tail
      = encendFrame :: ((idBytes id).reverse.map encFrame) ++ encstartFrame :: tail ∧
    (encstart id tail).length = tail.length + 10 :=
  ⟨idBytes_length id, encstart_eq id tail, encstart_length id tail⟩

/-! ### C9: the 10000-pc capture bound -/

/-- C9: the decoder captures at most 10000 program counters; when the
scope-end sentinel frame lies beyond the first 10000 captured frames,
the lookup returns not-found even though it executes within the scope's
dynamic extent. -/
theorem decoder_capture_bound (noise : List Frame) (id : Nat) (tail : List Frame)
    (hlen : noise.length = 10000) (hn : ∀ f ∈ noise, f.inEndRange = false) :
    fastestlastID (noise ++ encstart id tail) = DecodeResult.ok 0 false := by
  rw [fastestlastID, List.take_append_eq_append_take,
    List.take_of_length_le (by omega), hlen]
  simp only [Nat.sub_self, List.take_zero, List.append_nil]
  exact fastestScan_all_skip _ hn

/-- Witness for C9: 10000 ordinary frames above an active encoding. -/
theorem decoder_capture_bound_witness :
    fastestlastID (List.replicate 10000 othFrame ++ encstart 1 [])
      = DecodeResult.ok 0 false :=
  decoder_capture_bound _ 1 [] (by rw [List.length_replicate])
    fun f hf => by rw [List.eq_of_mem_replicate hf]; rfl

/-! ### C10: the pre-filter panic -/

/-- Counterexample to C10 as stated: a captured stack containing a pc in
the pre-filter range `[encendpc, encendpc+35)` that resolves to a
different function, lying below a complete encoding.  The decoder
returns from the successful decode before ever inspecting the offending
pc, so the lookup returns a result instead of aborting. -/
theorem prefilter_panic_counterexample :
    (⟨true, Entry.other 0⟩ : Frame).inEndRange = true ∧
    (⟨true, Entry.other 0⟩ : Frame).entry ≠ Entry.eend ∧
    fastestlastID (encstart 0 [⟨true, Entry.other 0⟩]) = DecodeResult.ok 0 true := by
  decide

/-- C10 (amended): the decoder panics when the outer scan reaches a
captured pc lying in the pre-filter range that resolves to a function
entry other than the scope-end sentinel's — in particular whenever such
a pc is preceded only by out-of-range frames and lies within the
capture window; if an earlier frame yields a successful decode, the
offending pc is never inspected. -/
theorem prefilter_mismatch_panics (pre : List Frame) (bad : Frame) (rest : List Frame)
    (hp : ∀ f ∈ pre, f.inEndRange = false) (hlen : pre.length < 10000)
    (hbr : bad.inEndRange = true) (hbe : bad.entry ≠ Entry.eend) :
    fastestlastID (pre ++ bad :: rest) = DecodeResult.panicked := by
  rw [fastestlastID, List.take_append_eq_append_take,
    List.take_of_length_le (by omega)]
  have hsub : 10000 - pre.length = (10000 - pre.length - 1) + 1 := by omega
  rw [hsub, List.take_succ_cons, fastestScan_append_skip _ _ hp, fastestScan,
    if_pos hbr, if_neg hbe]

/-- Witness for C10's amended statement. -/
theorem prefilter_mismatch_panics_witness :
    fastestlastID ([othFrame] ++ (⟨true, Entry.other 0⟩ : Frame) :: [])
      = DecodeResult.panicked :=
  prefilter_mismatch_panics [othFrame] ⟨true, Entry.other 0⟩ []
    (by decide) (by decide) (by decide) (by decide)

end GLC
